import Mathlib

/-!
Shallow embedding of `tensorflow_/tensorflowcv/models/mobilenetv2.py`.

The file builds a TensorFlow graph; we embed the graph as an inductive
`Tensor` whose constructors record the framework operations applied, in the
order and with the arguments the Python code passes them.  Channel counts are
integers (`ℤ`, matching Python's unbounded `int`), the width scale is a
rational (`ℚ`; the named variants use the exactly representable scales
1.0, 0.75, 0.5, 0.25), and Python's `int()` conversion is truncation toward
zero.
-/

/-- Python `int()` applied to a rational number: truncation toward zero. -/
def pyInt (q : ℚ) : ℤ :=
  Int.tdiv q.num q.den

/-- Python truthiness test `(model_name is None) or (not model_name)` for an
optional string: `None` and the empty string are falsy. -/
def pyFalsy : Option String → Bool
  | none => true
  | some s => s == ""

/-- Symbolic tensor graph.  Each constructor records one framework operation
(channels-first layout) applied by the graph builder.  `conv2d` and
`batchnorm` come from `common.py`, which is not among the sources; the spec
describes them as direct calls into the external numerical library, so they
appear as opaque graph nodes recording their arguments. -/
inductive Tensor where
  | placeholder (shape : List ℤ) : Tensor
  | conv2d (x : Tensor) (in_channels out_channels : ℤ)
      (kernel_size strides padding : ℕ) (groups : ℤ) (use_bias : Bool)
      (name : String) : Tensor
  | batchnorm (x : Tensor) (training : Bool) (name : String) : Tensor
  | relu6 (x : Tensor) (name : String) : Tensor
  | add (x y : Tensor) : Tensor
  | average_pooling2d (x : Tensor) (pool_size strides : ℕ) (name : String) : Tensor
  | flatten (x : Tensor) : Tensor
deriving Repr, DecidableEq

/-- Modelled from the spec: `common.conv2d` is not among the sources; the spec
says convolution is a direct call into the external library, so it is the
graph node that records its arguments. -/
def conv2d (x : Tensor) (in_channels out_channels : ℤ)
    (kernel_size strides padding : ℕ) (groups : ℤ) (use_bias : Bool)
    (name : String) : Tensor :=
  Tensor.conv2d x in_channels out_channels kernel_size strides padding groups use_bias name

/-- Modelled from the spec: `common.batchnorm` is not among the sources; the
spec says batch normalization is a direct call into the external library. -/
def batchnorm (x : Tensor) (training : Bool) (name : String) : Tensor :=
  Tensor.batchnorm x training name

/-- `mobnet_conv` (mobilenetv2.py lines 13-70): convolution, batch
normalization, and optionally a ReLU6 activation. -/
def mobnet_conv (x : Tensor) (in_channels out_channels : ℤ)
    (kernel_size strides padding : ℕ) (groups : ℤ) (activate training : Bool)
    (name : String) : Tensor :=
  let x1 := conv2d x in_channels out_channels kernel_size strides padding groups false
    (name ++ "/conv")
  let x2 := batchnorm x1 training (name ++ "/bn")
  if activate then Tensor.relu6 x2 (name ++ "/activ") else x2

/-- `mobnet_conv1x1` (lines 73-112): 1x1 version of `mobnet_conv`. -/
def mobnet_conv1x1 (x : Tensor) (in_channels out_channels : ℤ)
    (activate training : Bool) (name : String) : Tensor :=
  mobnet_conv x in_channels out_channels 1 1 0 1 activate training name

/-- `mobnet_dwconv3x3` (lines 115-157): 3x3 depthwise version of
`mobnet_conv`, with `groups = out_channels`. -/
def mobnet_dwconv3x3 (x : Tensor) (in_channels out_channels : ℤ) (strides : ℕ)
    (activate training : Bool) (name : String) : Tensor :=
  mobnet_conv x in_channels out_channels 3 strides 1 out_channels activate training name

/-- `mid_channels = in_channels * 6 if expansion else in_channels`
(line 193). -/
def lbMidChannels (in_channels : ℤ) (expansion : Bool) : ℤ :=
  if expansion then in_channels * 6 else in_channels

/-- `linear_bottleneck` (lines 160-224): expand 1x1 conv with ReLU6, 3x3
depthwise conv with ReLU6, project 1x1 conv without activation, and a
residual shortcut when `in_channels == out_channels` and `strides == 1`. -/
def linear_bottleneck (x : Tensor) (in_channels out_channels : ℤ) (strides : ℕ)
    (expansion training : Bool) (name : String) : Tensor :=
  let mid_channels := lbMidChannels in_channels expansion
  let x1 := mobnet_conv1x1 x in_channels mid_channels true training (name ++ "/conv1")
  let x2 := mobnet_dwconv3x3 x1 mid_channels mid_channels strides true training
    (name ++ "/conv2")
  let x3 := mobnet_conv1x1 x2 mid_channels out_channels false training (name ++ "/conv3")
  if in_channels = out_channels ∧ strides = 1 then Tensor.add x3 x else x3

/-- The configuration fields stored by `MobileNetV2.__init__`
(lines 246-260). -/
structure MobileNetV2 where
  channels : List (List ℤ)
  init_block_channels : ℤ
  final_block_channels : ℤ
  in_channels : ℤ
  in_size : ℕ × ℕ
  classes : ℤ
deriving Repr, DecidableEq

/-- The arguments the loop of `MobileNetV2.__call__` (lines 293-305) computes
for one `linear_bottleneck` unit: stage index `i`, unit index `j`, the
threaded `in_channels`, the stage's `out_channels`, and the computed
`strides = 2 if (j == 0) and (i != 0) else 1` and
`expansion = (i != 0) or (j != 0)`. -/
structure UnitArgs where
  stage : ℕ
  unit : ℕ
  in_channels : ℤ
  out_channels : ℤ
  strides : ℕ
  expansion : Bool
deriving Repr, DecidableEq

/-- Arguments for the units of stage `i`, starting at unit index `j` with the
given threaded `in_channels` (the inner loop of lines 294-305). -/
def stageUnits (i : ℕ) : ℕ → ℤ → List ℤ → List UnitArgs
  | _, _, [] => []
  | j, inc, oc :: rest =>
    ⟨i, j, inc, oc, if j = 0 ∧ i ≠ 0 then 2 else 1, (i != 0) || (j != 0)⟩ ::
      stageUnits i (j + 1) oc rest

/-- Arguments for all units of all stages, starting at stage index `i` (the
outer loop of lines 293-305); after a stage, `in_channels` is the stage's
last `out_channels` (unchanged for an empty stage). -/
def stagesUnits : ℕ → ℤ → List (List ℤ) → List UnitArgs
  | _, _, [] => []
  | i, inc, st :: rest =>
    stageUnits i 0 inc st ++ stagesUnits (i + 1) (st.getLastD inc) rest

/-- `MobileNetV2.__call__` (lines 262-330), with the object state threaded
explicitly: the method assigns no attribute of `self`, so the state component
of the result is the unchanged configuration.  The bottleneck loop is driven
by `stagesUnits`, which records exactly the per-unit arguments the Python
loop computes. -/
def MobileNetV2.callS (self : MobileNetV2) (x : Tensor) (training : Bool) :
    Tensor × MobileNetV2 :=
  let x1 := mobnet_conv x self.in_channels self.init_block_channels 3 2 1 1 true training
    "features/init_block"
  let units := stagesUnits 0 self.init_block_channels self.channels
  let x2 := units.foldl (fun t u =>
    linear_bottleneck t u.in_channels u.out_channels u.strides u.expansion training
      ("features/stage" ++ toString (u.stage + 1) ++ "/unit" ++ toString (u.unit + 1))) x1
  let inc2 := self.channels.foldl (fun c st => st.getLastD c) self.init_block_channels
  let x3 := mobnet_conv1x1 x2 inc2 self.final_block_channels true training
    "features/final_block"
  let x4 := Tensor.average_pooling2d x3 7 1 "features/final_pool"
  let x5 := conv2d x4 self.final_block_channels self.classes 1 1 0 1 false "output"
  (Tensor.flatten x5, self)

/-- The tensor returned by `MobileNetV2.__call__`. -/
def MobileNetV2.call (self : MobileNetV2) (x : Tensor) (training : Bool) : Tensor :=
  (self.callS x training).1

/-- `channels_per_layers = [16, 24, 32, 64, 96, 160, 320]` (line 362). -/
def channels_per_layers : List ℤ := [16, 24, 32, 64, 96, 160, 320]

/-- `layers = [1, 2, 3, 4, 3, 3, 1]` (line 360). -/
def mobilenetv2Layers : List ℕ := [1, 2, 3, 4, 3, 3, 1]

/-- `downsample = [0, 1, 1, 1, 0, 1, 0]` (line 361). -/
def mobilenetv2Downsample : List ℕ := [0, 1, 1, 1, 0, 1, 0]

/-- The lambda of the `reduce` on line 365: on `(c, l, d)`, append a new
stage `[c] * l` when the downsample flag `d` is non-zero, otherwise extend
the last stage with `[c] * l`. -/
def channelsStep (x : List (List ℤ)) (y : ℤ × ℕ × ℕ) : List (List ℤ) :=
  if y.2.2 ≠ 0 then x ++ [List.replicate y.2.1 y.1]
  else x.dropLast ++ [x.getLastD [] ++ List.replicate y.2.1 y.1]

/-- The unscaled stage channel table: the `reduce` on lines 365-366 over
`zip(channels_per_layers, layers, downsample)` with initial value `[[]]`. -/
def baseChannels : List (List ℤ) :=
  List.foldl channelsStep [[]]
    (channels_per_layers.zip (mobilenetv2Layers.zip mobilenetv2Downsample))

/-- The functor returned by `get_mobilenetv2`: the `MobileNetV2` object with
the two extra fields assigned on lines 384-389. -/
structure MobileNetV2Ext where
  net : MobileNetV2
  state_dict : Option String
  file_path : Option String
deriving Repr, DecidableEq

/-- Modelled from the spec: `model_store.download_state_dict` is not among
the sources; the spec only says pretrained weights are optionally restored.
It returns an abstract state-dict token and the local file path. -/
def download_state_dict (model_name : String) (local_model_store_dir_path : String) :
    String × String :=
  ("weights:" ++ model_name, local_model_store_dir_path ++ "/" ++ model_name)

/-- `get_mobilenetv2` (lines 333-391).  The second component of the result is
the list of download effects performed, so that "no download is attempted"
is visible in the model; the first component is `Except.error` exactly when
the Python code raises `ValueError`. -/
def get_mobilenetv2 (width_scale : ℚ) (model_name : Option String) (pretrained : Bool)
    (root : String) (in_channels : ℤ) (in_size : ℕ × ℕ) (classes : ℤ) :
    Except String MobileNetV2Ext × List String :=
  let cs0 := baseChannels
  let cs := if width_scale ≠ 1 then
    cs0.map (List.map fun cij : ℤ => pyInt ((cij : ℚ) * width_scale)) else cs0
  let ibc : ℤ := if width_scale ≠ 1 then pyInt (32 * width_scale) else 32
  let fbc : ℤ := if width_scale ≠ 1 ∧ 1 < width_scale then pyInt (1280 * width_scale)
    else 1280
  let net : MobileNetV2 := ⟨cs, ibc, fbc, in_channels, in_size, classes⟩
  if pretrained then
    if pyFalsy model_name then
      (Except.error
        "Parameter model_name should be properly initialized for loading pretrained model.",
       [])
    else
      let dl := download_state_dict (model_name.getD "") root
      (Except.ok ⟨net, some dl.1, some dl.2⟩, ["download " ++ model_name.getD ""])
  else
    (Except.ok ⟨net, none, none⟩, [])

/-- `mobilenetv2_w1` (lines 394-411). -/
def mobilenetv2_w1 (pretrained : Bool) (root : String) (in_channels : ℤ)
    (in_size : ℕ × ℕ) (classes : ℤ) : Except String MobileNetV2Ext × List String :=
  get_mobilenetv2 1 (some "mobilenetv2_w1") pretrained root in_channels in_size classes

/-- `mobilenetv2_w3d4` (lines 414-431). -/
def mobilenetv2_w3d4 (pretrained : Bool) (root : String) (in_channels : ℤ)
    (in_size : ℕ × ℕ) (classes : ℤ) : Except String MobileNetV2Ext × List String :=
  get_mobilenetv2 (3 / 4) (some "mobilenetv2_w3d4") pretrained root in_channels in_size classes

/-- `mobilenetv2_wd2` (lines 434-451). -/
def mobilenetv2_wd2 (pretrained : Bool) (root : String) (in_channels : ℤ)
    (in_size : ℕ × ℕ) (classes : ℤ) : Except String MobileNetV2Ext × List String :=
  get_mobilenetv2 (1 / 2) (some "mobilenetv2_wd2") pretrained root in_channels in_size classes

/-- `mobilenetv2_wd4` (lines 454-471). -/
def mobilenetv2_wd4 (pretrained : Bool) (root : String) (in_channels : ℤ)
    (in_size : ℕ × ℕ) (classes : ℤ) : Except String MobileNetV2Ext × List String :=
  get_mobilenetv2 (1 / 4) (some "mobilenetv2_wd4") pretrained root in_channels in_size classes

/-- Modelled from the spec: output spatial size of a convolution with
explicit symmetric padding in the channels-first layout (the external
framework's documented rule, floor division). -/
def convOutDim (h : ℤ) (k s p : ℕ) : ℤ :=
  (h + 2 * (p : ℤ) - (k : ℤ)) / (s : ℤ) + 1

/-- Modelled from the spec: output spatial size of an unpadded pooling
window (the external framework's documented rule, floor division). -/
def poolOutDim (h : ℤ) (k s : ℕ) : ℤ :=
  (h - (k : ℤ)) / (s : ℤ) + 1

/-- Modelled from the spec: shape semantics of the recorded graph operations
in the channels-first layout.  `none` when an operation is applied to a
tensor of the wrong rank, a convolution to a tensor whose channel count
differs from its declared `in_channels`, or an addition to tensors of
different shapes. -/
def shapeOf : Tensor → Option (List ℤ)
  | .placeholder s => some s
  | .conv2d x ic oc k s p _ _ _ => do
      let sh ← shapeOf x
      match sh with
      | [n, c, h, w] =>
        if c = ic then some [n, oc, convOutDim h k s p, convOutDim w k s p] else none
      | _ => none
  | .batchnorm x _ _ => shapeOf x
  | .relu6 x _ => shapeOf x
  | .add x y => do
      let s1 ← shapeOf x
      let s2 ← shapeOf y
      if s1 = s2 then some s1 else none
  | .average_pooling2d x k s _ => do
      let sh ← shapeOf x
      match sh with
      | [n, c, h, w] => some [n, c, poolOutDim h k s, poolOutDim w k s]
      | _ => none
  | .flatten x => do
      let sh ← shapeOf x
      match sh with
      | [n, c, h, w] => some [n, c * h * w]
      | _ => none

/-- The arguments of one recorded convolution node. -/
structure ConvSpec where
  in_channels : ℤ
  out_channels : ℤ
  kernel_size : ℕ
  strides : ℕ
  padding : ℕ
  groups : ℤ
  use_bias : Bool
  name : String
deriving Repr, DecidableEq

/-- All convolution nodes of a graph, innermost (first applied) first. -/
def convNodes : Tensor → List ConvSpec
  | .placeholder _ => []
  | .conv2d x ic oc k s p g b n => convNodes x ++ [⟨ic, oc, k, s, p, g, b, n⟩]
  | .batchnorm x _ _ => convNodes x
  | .relu6 x _ => convNodes x
  | .add x y => convNodes x ++ convNodes y
  | .average_pooling2d x _ _ _ => convNodes x
  | .flatten x => convNodes x

/-- The `(stage, unit)` index pairs of a channels table, stages numbered
from `i`. -/
def stageIndexPairs : ℕ → List (List ℤ) → List (ℕ × ℕ)
  | _, [] => []
  | i, st :: rest => (List.range st.length).map (Prod.mk i) ++ stageIndexPairs (i + 1) rest

/-- The channel-chaining invariant of a unit-argument list: each unit's
`in_channels` is the previous unit's `out_channels`, starting from `c`
(the `in_channels = out_channels` threading of line 305). -/
def unitsChained : ℤ → List UnitArgs → Prop
  | _, [] => True
  | c, u :: us => u.in_channels = c ∧ unitsChained u.out_channels us

/-- The threaded `in_channels` value after a unit list, starting from `c`. -/
def unitsOut (c : ℤ) (units : List UnitArgs) : ℤ :=
  units.foldl (fun _ u => u.out_channels) c

/-- The spatial size after the 3x3 padding-1 depthwise convolution of each
unit in turn. -/
def unitsSpatial (a : ℤ) (units : List UnitArgs) : ℤ :=
  units.foldl (fun b u => convOutDim b 3 u.strides 1) a

theorem convNodes_mobnet_conv (x : Tensor) (ic oc : ℤ) (k s p : ℕ) (g : ℤ)
    (a tr : Bool) (n : String) :
    convNodes (mobnet_conv x ic oc k s p g a tr n) =
      convNodes x ++ [⟨ic, oc, k, s, p, g, false, n ++ "/conv"⟩] := by
  unfold mobnet_conv conv2d batchnorm
  cases a <;> simp [convNodes]

theorem linear_bottleneck_eq (x : Tensor) (ic oc : ℤ) (s : ℕ) (e training : Bool)
    (name : String) :
    linear_bottleneck x ic oc s e training name =
      (let mid := lbMidChannels ic e
       let expand := Tensor.relu6 (Tensor.batchnorm
         (Tensor.conv2d x ic mid 1 1 0 1 false (name ++ "/conv1" ++ "/conv"))
         training (name ++ "/conv1" ++ "/bn")) (name ++ "/conv1" ++ "/activ")
       let dw := Tensor.relu6 (Tensor.batchnorm
         (Tensor.conv2d expand mid mid 3 s 1 mid false (name ++ "/conv2" ++ "/conv"))
         training (name ++ "/conv2" ++ "/bn")) (name ++ "/conv2" ++ "/activ")
       let proj := Tensor.batchnorm
         (Tensor.conv2d dw mid oc 1 1 0 1 false (name ++ "/conv3" ++ "/conv"))
         training (name ++ "/conv3" ++ "/bn")
       if ic = oc ∧ s = 1 then Tensor.add proj x else proj) := by
  simp [linear_bottleneck, mobnet_conv1x1, mobnet_dwconv3x3, mobnet_conv, conv2d,
    batchnorm]

theorem convNodes_linear_bottleneck (x : Tensor) (ic oc : ℤ) (s : ℕ) (e tr : Bool)
    (n : String) :
    ∃ r, convNodes (linear_bottleneck x ic oc s e tr n) = convNodes x ++ r := by
  rw [linear_bottleneck_eq]
  by_cases h : ic = oc ∧ s = 1
  · rw [if_pos h]
    refine ⟨[⟨ic, lbMidChannels ic e, 1, 1, 0, 1, false, n ++ "/conv1" ++ "/conv"⟩,
             ⟨lbMidChannels ic e, lbMidChannels ic e, 3, s, 1, lbMidChannels ic e, false,
               n ++ "/conv2" ++ "/conv"⟩,
             ⟨lbMidChannels ic e, oc, 1, 1, 0, 1, false, n ++ "/conv3" ++ "/conv"⟩] ++
             convNodes x, ?_⟩
    simp [convNodes]
  · rw [if_neg h]
    refine ⟨[⟨ic, lbMidChannels ic e, 1, 1, 0, 1, false, n ++ "/conv1" ++ "/conv"⟩,
             ⟨lbMidChannels ic e, lbMidChannels ic e, 3, s, 1, lbMidChannels ic e, false,
               n ++ "/conv2" ++ "/conv"⟩,
             ⟨lbMidChannels ic e, oc, 1, 1, 0, 1, false, n ++ "/conv3" ++ "/conv"⟩], ?_⟩
    simp [convNodes]

theorem convNodes_foldUnits (training : Bool) :
    ∀ (units : List UnitArgs) (x : Tensor),
    ∃ r, convNodes (units.foldl (fun t u =>
      linear_bottleneck t u.in_channels u.out_channels u.strides u.expansion training
        ("features/stage" ++ toString (u.stage + 1) ++ "/unit" ++ toString (u.unit + 1))) x) =
      convNodes x ++ r
  | [], x => ⟨[], by simp⟩
  | u :: us, x => by
    simp only [List.foldl_cons]
    obtain ⟨r2, h2⟩ := convNodes_foldUnits training us
      (linear_bottleneck x u.in_channels u.out_channels u.strides u.expansion training
        ("features/stage" ++ toString (u.stage + 1) ++ "/unit" ++ toString (u.unit + 1)))
    obtain ⟨r1, h1⟩ := convNodes_linear_bottleneck x u.in_channels u.out_channels u.strides
      u.expansion training
      ("features/stage" ++ toString (u.stage + 1) ++ "/unit" ++ toString (u.unit + 1))
    exact ⟨r1 ++ r2, by rw [h2, h1, List.append_assoc]⟩

theorem stageUnits_strides_expansion : ∀ (i j : ℕ) (inc : ℤ) (st : List ℤ),
    ∀ u ∈ stageUnits i j inc st,
      u.strides = (if u.unit = 0 ∧ u.stage ≠ 0 then 2 else 1) ∧
      u.expansion = ((u.stage != 0) || (u.unit != 0))
  | _, _, _, [] => by simp [stageUnits]
  | i, j, inc, oc :: rest => by
    intro u hu
    simp only [stageUnits, List.mem_cons] at hu
    rcases hu with h | h
    · subst h; exact ⟨rfl, rfl⟩
    · exact stageUnits_strides_expansion i (j + 1) oc rest u h

theorem stagesUnits_strides_expansion : ∀ (i : ℕ) (inc : ℤ) (cs : List (List ℤ)),
    ∀ u ∈ stagesUnits i inc cs,
      u.strides = (if u.unit = 0 ∧ u.stage ≠ 0 then 2 else 1) ∧
      u.expansion = ((u.stage != 0) || (u.unit != 0))
  | _, _, [] => by simp [stagesUnits]
  | i, inc, st :: rest => by
    intro u hu
    simp only [stagesUnits, List.mem_append] at hu
    rcases hu with h | h
    · exact stageUnits_strides_expansion i 0 inc st u h
    · exact stagesUnits_strides_expansion (i + 1) (st.getLastD inc) rest u h

theorem stageUnits_indices : ∀ (i j : ℕ) (inc : ℤ) (st : List ℤ),
    (stageUnits i j inc st).map (fun u => (u.stage, u.unit)) =
      (List.range' j st.length).map (Prod.mk i)
  | _, _, _, [] => by simp [stageUnits]
  | i, j, inc, oc :: rest => by
    simp [stageUnits, List.range'_succ, stageUnits_indices i (j + 1) oc rest]

theorem stagesUnits_indices : ∀ (i : ℕ) (inc : ℤ) (cs : List (List ℤ)),
    (stagesUnits i inc cs).map (fun u => (u.stage, u.unit)) = stageIndexPairs i cs
  | _, _, [] => rfl
  | i, inc, st :: rest => by
    simp only [stagesUnits, stageIndexPairs, List.map_append, stageUnits_indices i 0 inc st,
      stagesUnits_indices (i + 1) (st.getLastD inc) rest, List.range_eq_range']

/-- C1: for `width_scale = 1.0`, `get_mobilenetv2` builds the stage channel
table `[[16], [24, 24], [32, 32, 32], [64, 64, 64, 64, 96, 96, 96],
[160, 160, 160, 320]]` with `init_block_channels = 32` and
`final_block_channels = 1280`; the reduce step starts a new stage exactly
when the downsample flag is non-zero and otherwise appends the repeated
channel counts to the last stage. -/
theorem spec_c1 (model_name : Option String) (root : String) (in_channels : ℤ)
    (in_size : ℕ × ℕ) (classes : ℤ) :
    (∀ (acc : List (List ℤ)) (c : ℤ) (l d : ℕ), channelsStep acc (c, l, d) =
      if d ≠ 0 then acc ++ [List.replicate l c]
      else acc.dropLast ++ [acc.getLastD [] ++ List.replicate l c]) ∧
    ∃ ext, (get_mobilenetv2 1 model_name false root in_channels in_size classes).1 =
        Except.ok ext ∧
      ext.net.channels =
        [[16], [24, 24], [32, 32, 32], [64, 64, 64, 64, 96, 96, 96],
         [160, 160, 160, 320]] ∧
      ext.net.init_block_channels = 32 ∧ ext.net.final_block_channels = 1280 := by
  exact ⟨fun acc c l d => rfl,
    ⟨⟨baseChannels, 32, 1280, in_channels, in_size, classes⟩, none, none⟩, rfl,
    (by decide : baseChannels =
      [[16], [24, 24], [32, 32, 32], [64, 64, 64, 64, 96, 96, 96], [160, 160, 160, 320]]),
    rfl, rfl⟩

/-- C3: `linear_bottleneck` emits exactly a 1x1 conv-batchnorm block with
ReLU6 expanding to `mid_channels`, a 3x3 depthwise (groups = its
`out_channels`) conv-batchnorm block with ReLU6 at the given strides, and a
1x1 conv-batchnorm projection with no activation, and adds the input as a
residual shortcut if and only if `in_channels = out_channels` and
`strides = 1`. -/
theorem spec_c3 (x : Tensor) (ic oc : ℤ) (s : ℕ) (e training : Bool) (name : String) :
    linear_bottleneck x ic oc s e training name =
      (let mid := lbMidChannels ic e
       let expand := Tensor.relu6 (Tensor.batchnorm
         (Tensor.conv2d x ic mid 1 1 0 1 false (name ++ "/conv1" ++ "/conv"))
         training (name ++ "/conv1" ++ "/bn")) (name ++ "/conv1" ++ "/activ")
       let dw := Tensor.relu6 (Tensor.batchnorm
         (Tensor.conv2d expand mid mid 3 s 1 mid false (name ++ "/conv2" ++ "/conv"))
         training (name ++ "/conv2" ++ "/bn")) (name ++ "/conv2" ++ "/activ")
       let proj := Tensor.batchnorm
         (Tensor.conv2d dw mid oc 1 1 0 1 false (name ++ "/conv3" ++ "/conv"))
         training (name ++ "/conv3" ++ "/bn")
       if ic = oc ∧ s = 1 then Tensor.add proj x else proj) :=
  linear_bottleneck_eq x ic oc s e training name

/-- C7: each named variant constructor delegates to `get_mobilenetv2` with
its fixed width scale (1.0, 0.75, 0.5, 0.25) and its own name as
`model_name`, forwarding all other arguments unchanged. -/
theorem spec_c7 (pretrained : Bool) (root : String) (in_channels : ℤ)
    (in_size : ℕ × ℕ) (classes : ℤ) :
    mobilenetv2_w1 pretrained root in_channels in_size classes =
      get_mobilenetv2 1 (some "mobilenetv2_w1") pretrained root in_channels in_size classes ∧
    mobilenetv2_w3d4 pretrained root in_channels in_size classes =
      get_mobilenetv2 (3 / 4) (some "mobilenetv2_w3d4") pretrained root in_channels in_size
        classes ∧
    mobilenetv2_wd2 pretrained root in_channels in_size classes =
      get_mobilenetv2 (1 / 2) (some "mobilenetv2_wd2") pretrained root in_channels in_size
        classes ∧
    mobilenetv2_wd4 pretrained root in_channels in_size classes =
      get_mobilenetv2 (1 / 4) (some "mobilenetv2_wd4") pretrained root in_channels in_size
        classes :=
  ⟨rfl, rfl, rfl, rfl⟩

/-- C9: `MobileNetV2.__call__` leaves every configuration field unchanged,
so calling the functor again on the resulting state builds the same graph. -/
theorem spec_c9 (net : MobileNetV2) (x : Tensor) (training : Bool) :
    ((net.callS x training).2.channels = net.channels ∧
     (net.callS x training).2.init_block_channels = net.init_block_channels ∧
     (net.callS x training).2.final_block_channels = net.final_block_channels ∧
     (net.callS x training).2.in_channels = net.in_channels ∧
     (net.callS x training).2.in_size = net.in_size ∧
     (net.callS x training).2.classes = net.classes) ∧
    ((net.callS x training).2.callS x training).1 = (net.callS x training).1 :=
  ⟨⟨rfl, rfl, rfl, rfl, rfl, rfl⟩, rfl⟩

/-- C10: with `pretrained = False`, the object returned by `get_mobilenetv2`
has `state_dict = None` and `file_path = None`. -/
theorem spec_c10 (width_scale : ℚ) (model_name : Option String) (root : String)
    (in_channels : ℤ) (in_size : ℕ × ℕ) (classes : ℤ) :
    ∃ ext, (get_mobilenetv2 width_scale model_name false root in_channels in_size
        classes).1 = Except.ok ext ∧
      ext.state_dict = none ∧ ext.file_path = none :=
  ⟨_, rfl, rfl, rfl⟩

theorem convOutDim_one (a : ℤ) : convOutDim a 3 1 1 = a := by
  simp only [convOutDim, Nat.cast_ofNat, Nat.cast_one, Int.ediv_one]
  omega

theorem convOutDim_one1 (a : ℤ) : convOutDim a 1 1 0 = a := by
  simp only [convOutDim, Nat.cast_ofNat, Nat.cast_one, Nat.cast_zero, Int.ediv_one]
  omega

theorem shapeOf_mobnet_conv (x : Tensor) (ic oc : ℤ) (k s p : ℕ) (g : ℤ)
    (a tr : Bool) (nm : String) (n h w : ℤ) (hx : shapeOf x = some [n, ic, h, w]) :
    shapeOf (mobnet_conv x ic oc k s p g a tr nm) =
      some [n, oc, convOutDim h k s p, convOutDim w k s p] := by
  unfold mobnet_conv conv2d batchnorm
  cases a <;> simp [shapeOf, hx]

theorem shapeOf_linear_bottleneck (x : Tensor) (ic oc : ℤ) (s : ℕ) (e tr : Bool)
    (nm : String) (n h w : ℤ) (hx : shapeOf x = some [n, ic, h, w]) :
    shapeOf (linear_bottleneck x ic oc s e tr nm) =
      some [n, oc, convOutDim h 3 s 1, convOutDim w 3 s 1] := by
  have h1 := shapeOf_mobnet_conv x ic (lbMidChannels ic e) 1 1 0 1 true tr
    (nm ++ "/conv1") n h w hx
  simp only [convOutDim_one1] at h1
  have h2 := shapeOf_mobnet_conv _ (lbMidChannels ic e) (lbMidChannels ic e) 3 s 1
    (lbMidChannels ic e) true tr (nm ++ "/conv2") n h w h1
  have h3 := shapeOf_mobnet_conv _ (lbMidChannels ic e) oc 1 1 0 1 false tr
    (nm ++ "/conv3") n (convOutDim h 3 s 1) (convOutDim w 3 s 1) h2
  simp only [convOutDim_one1] at h3
  unfold linear_bottleneck mobnet_conv1x1 mobnet_dwconv3x3
  by_cases hr : ic = oc ∧ s = 1
  · obtain ⟨hio, hs⟩ := hr
    subst hio
    subst hs
    rw [if_pos ⟨rfl, rfl⟩]
    simp only [convOutDim_one] at h3 ⊢
    simp [shapeOf, h3, hx, convOutDim_one, convOutDim_one1]
  · rw [if_neg hr]
    exact h3

theorem unitsOut_cons (c : ℤ) (u : UnitArgs) (us : List UnitArgs) :
    unitsOut c (u :: us) = unitsOut u.out_channels us := by
  simp [unitsOut]

theorem unitsSpatial_cons (a : ℤ) (u : UnitArgs) (us : List UnitArgs) :
    unitsSpatial a (u :: us) = unitsSpatial (convOutDim a 3 u.strides 1) us := by
  simp [unitsSpatial]

theorem unitsOut_append (c : ℤ) (l1 l2 : List UnitArgs) :
    unitsOut c (l1 ++ l2) = unitsOut (unitsOut c l1) l2 := by
  simp [unitsOut, List.foldl_append]

theorem unitsSpatial_append (a : ℤ) (l1 l2 : List UnitArgs) :
    unitsSpatial a (l1 ++ l2) = unitsSpatial (unitsSpatial a l1) l2 := by
  simp [unitsSpatial, List.foldl_append]

theorem unitsChained_append (c : ℤ) (l1 l2 : List UnitArgs) :
    unitsChained c (l1 ++ l2) ↔
      unitsChained c l1 ∧ unitsChained (unitsOut c l1) l2 := by
  induction l1 generalizing c with
  | nil => simp [unitsChained, unitsOut]
  | cons u us ih =>
    simp [unitsChained, unitsOut_cons, ih u.out_channels, and_assoc]

theorem stageUnits_chained : ∀ (i j : ℕ) (inc : ℤ) (st : List ℤ),
    unitsChained inc (stageUnits i j inc st)
  | _, _, _, [] => trivial
  | i, j, inc, oc :: rest => ⟨rfl, stageUnits_chained i (j + 1) oc rest⟩

theorem stageUnits_out : ∀ (i j : ℕ) (inc : ℤ) (st : List ℤ),
    unitsOut inc (stageUnits i j inc st) = st.getLastD inc
  | _, _, _, [] => rfl
  | i, j, inc, oc :: rest => by
    rw [stageUnits, unitsOut_cons]
    rw [List.getLastD_cons]
    exact stageUnits_out i (j + 1) oc rest

theorem stagesUnits_chained_out : ∀ (i : ℕ) (inc : ℤ) (cs : List (List ℤ)),
    unitsChained inc (stagesUnits i inc cs) ∧
    unitsOut inc (stagesUnits i inc cs) =
      cs.foldl (fun c st => st.getLastD c) inc
  | _, _, [] => ⟨trivial, rfl⟩
  | i, inc, st :: rest => by
    obtain ⟨ihc, iho⟩ := stagesUnits_chained_out (i + 1) (st.getLastD inc) rest
    constructor
    · rw [stagesUnits, unitsChained_append, stageUnits_out]
      exact ⟨stageUnits_chained i 0 inc st, ihc⟩
    · rw [stagesUnits, unitsOut_append, stageUnits_out, List.foldl_cons]
      exact iho

theorem stageUnits_spatial_one : ∀ (i j : ℕ) (inc : ℤ) (st : List ℤ) (a : ℤ),
    i = 0 ∨ 1 ≤ j → unitsSpatial a (stageUnits i j inc st) = a
  | _, _, _, [], _, _ => rfl
  | i, j, inc, oc :: rest, a, hij => by
    have hstr : (if j = 0 ∧ i ≠ 0 then 2 else 1) = 1 := by
      rcases hij with h0 | h1
      · subst h0; simp
      · have hj : ¬(j = 0 ∧ i ≠ 0) := by omega
        exact if_neg hj
    rw [stageUnits, unitsSpatial_cons]
    dsimp only
    rw [hstr, convOutDim_one]
    exact stageUnits_spatial_one i (j + 1) oc rest a (by omega)

theorem stageUnits_spatial_two (i : ℕ) (hi : i ≠ 0) (inc oc : ℤ)
    (rest : List ℤ) (a : ℤ) :
    unitsSpatial a (stageUnits i 0 inc (oc :: rest)) = convOutDim a 3 2 1 := by
  rw [stageUnits, unitsSpatial_cons]
  dsimp only
  rw [if_pos ⟨rfl, hi⟩]
  exact stageUnits_spatial_one i 1 oc rest _ (Or.inr le_rfl)

theorem shapeOf_foldUnits (training : Bool) : ∀ (units : List UnitArgs) (x : Tensor)
    (n c h w : ℤ), shapeOf x = some [n, c, h, w] → unitsChained c units →
    shapeOf (units.foldl (fun t u =>
      linear_bottleneck t u.in_channels u.out_channels u.strides u.expansion training
        ("features/stage" ++ toString (u.stage + 1) ++ "/unit" ++ toString (u.unit + 1))) x) =
      some [n, unitsOut c units, unitsSpatial h units, unitsSpatial w units]
  | [], x, n, c, h, w, hx, _ => by simpa [unitsOut, unitsSpatial] using hx
  | u :: us, x, n, c, h, w, hx, hch => by
    obtain ⟨hin, hch2⟩ := hch
    rw [List.foldl_cons, unitsOut_cons, unitsSpatial_cons, unitsSpatial_cons]
    refine shapeOf_foldUnits training us _ n u.out_channels _ _ ?_ hch2
    exact shapeOf_linear_bottleneck x u.in_channels u.out_channels u.strides u.expansion
      training _ n h w (by rw [hin]; exact hx)

/-- C4: in `MobileNetV2.__call__` the initial block always uses stride 2,
and for every channels table the `linear_bottleneck` unit at stage index
`i` and unit index `j` uses strides 2 if and only if `j = 0` and `i ≠ 0`,
otherwise strides 1; the unit-argument list covers exactly the index pairs
of the table. -/
theorem spec_c4 (net : MobileNetV2) (shape : List ℤ) (training : Bool) :
    (convNodes (net.call (Tensor.placeholder shape) training)).head? =
      some ⟨net.in_channels, net.init_block_channels, 3, 2, 1, 1, false,
        "features/init_block" ++ "/conv"⟩ ∧
    (∀ u ∈ stagesUnits 0 net.init_block_channels net.channels,
      u.strides = if u.unit = 0 ∧ u.stage ≠ 0 then 2 else 1) ∧
    (stagesUnits 0 net.init_block_channels net.channels).map (fun u => (u.stage, u.unit)) =
      stageIndexPairs 0 net.channels := by
  refine ⟨?_, fun u hu => (stagesUnits_strides_expansion 0 _ _ u hu).1,
    stagesUnits_indices 0 _ _⟩
  show (convNodes ((net.callS (Tensor.placeholder shape) training).1)).head? = _
  unfold MobileNetV2.callS
  obtain ⟨r, hr⟩ := convNodes_foldUnits training
    (stagesUnits 0 net.init_block_channels net.channels)
    (mobnet_conv (Tensor.placeholder shape) net.in_channels net.init_block_channels 3 2 1 1
      true training "features/init_block")
  simp [convNodes, mobnet_conv1x1, conv2d, convNodes_mobnet_conv, hr]

/-- Witness for C4: the first unit of the second stage of a concrete table
uses stride 2 as the formula prescribes. -/
theorem spec_c4_witness :
    (⟨1, 0, 16, 24, 2, true⟩ : UnitArgs).strides =
      if (⟨1, 0, 16, 24, 2, true⟩ : UnitArgs).unit = 0 ∧
          (⟨1, 0, 16, 24, 2, true⟩ : UnitArgs).stage ≠ 0 then 2 else 1 :=
  (spec_c4 ⟨[[16], [24, 24]], 32, 1280, 3, (224, 224), 1000⟩ [1, 3, 224, 224] false).2.1
    ⟨1, 0, 16, 24, 2, true⟩ (by decide)

/-- C5: in `MobileNetV2.__call__`, channel expansion is disabled (so
`mid_channels = in_channels`) exactly for the very first unit of the first
stage; every other unit uses `mid_channels = 6 * in_channels`. -/
theorem spec_c5 (inc : ℤ) (cs : List (List ℤ)) :
    ∀ u ∈ stagesUnits 0 inc cs,
      (u.expansion = false ↔ u.stage = 0 ∧ u.unit = 0) ∧
      lbMidChannels u.in_channels u.expansion =
        if u.stage = 0 ∧ u.unit = 0 then u.in_channels else 6 * u.in_channels := by
  intro u hu
  obtain ⟨-, he⟩ := stagesUnits_strides_expansion 0 inc cs u hu
  rw [lbMidChannels, he]
  by_cases hi : u.stage = 0 <;> by_cases hj : u.unit = 0 <;>
    simp [hi, hj, mul_comm]

/-- Witness for C5: the first unit of the second stage of a concrete table
expands 16 input channels to 96 mid channels. -/
theorem spec_c5_witness : lbMidChannels (16 : ℤ) true = 96 := by
  have h := (spec_c5 32 [[16], [24, 24]] ⟨1, 0, 16, 24, 2, true⟩ (by decide)).2
  simpa using h

/-- C6: for every configuration whose channels table has five nonempty
stages (as every table built by `get_mobilenetv2` does), every batch size
`n` and every training flag, the graph built by `MobileNetV2.__call__` maps
an input of shape `(n, in_channels, 224, 224)` to shape `(n, classes)`:
the feature extractor reduces the spatial size to 7x7, the 7x7 average
pooling to 1x1, the final 1x1 convolution maps `final_block_channels` to
`classes` channels, and flatten yields a rank-2 tensor. -/
theorem spec_c6 (net : MobileNetV2) (n : ℤ) (training : Bool)
    (h5 : net.channels.length = 5) (hne : ∀ st ∈ net.channels, st ≠ []) :
    shapeOf (net.call (Tensor.placeholder [n, net.in_channels, 224, 224]) training) =
      some [n, net.classes] := by
  obtain ⟨cs, ibc, fbc, ic, isz, cls⟩ := net
  dsimp only at h5 hne ⊢
  rcases cs with _ | ⟨s1, cs⟩; · simp at h5
  rcases cs with _ | ⟨s2, cs⟩; · simp at h5
  rcases cs with _ | ⟨s3, cs⟩; · simp at h5
  rcases cs with _ | ⟨s4, cs⟩; · simp at h5
  rcases cs with _ | ⟨s5, cs⟩; · simp at h5
  rcases cs with _ | ⟨s6, cs⟩
  case cons => simp at h5
  have hs2 := hne s2 (by simp)
  have hs3 := hne s3 (by simp)
  have hs4 := hne s4 (by simp)
  have hs5 := hne s5 (by simp)
  rcases s2 with _ | ⟨a2, t2⟩; · exact absurd rfl hs2
  rcases s3 with _ | ⟨a3, t3⟩; · exact absurd rfl hs3
  rcases s4 with _ | ⟨a4, t4⟩; · exact absurd rfl hs4
  rcases s5 with _ | ⟨a5, t5⟩; · exact absurd rfl hs5
  have hx1 := shapeOf_mobnet_conv (Tensor.placeholder [n, ic, 224, 224]) ic ibc 3 2 1 1
    true training "features/init_block" n 224 224 rfl
  have hc224 : convOutDim 224 3 2 1 = 112 := by decide
  rw [hc224] at hx1
  obtain ⟨hch, hout⟩ := stagesUnits_chained_out 0 ibc
    (s1 :: (a2 :: t2) :: (a3 :: t3) :: (a4 :: t4) :: (a5 :: t5) :: [])
  have hx2 := shapeOf_foldUnits training
    (stagesUnits 0 ibc (s1 :: (a2 :: t2) :: (a3 :: t3) :: (a4 :: t4) :: (a5 :: t5) :: []))
    _ n ibc 112 112 hx1 hch
  rw [hout] at hx2
  have hsp : unitsSpatial 112 (stagesUnits 0 ibc
      (s1 :: (a2 :: t2) :: (a3 :: t3) :: (a4 :: t4) :: (a5 :: t5) :: [])) = 7 := by
    simp only [stagesUnits, unitsSpatial_append, List.append_nil]
    rw [stageUnits_spatial_one 0 0 ibc s1 112 (Or.inl rfl)]
    rw [stageUnits_spatial_two 1 (by decide) _ a2 t2 _]
    rw [stageUnits_spatial_two 2 (by decide) _ a3 t3 _]
    rw [stageUnits_spatial_two 3 (by decide) _ a4 t4 _]
    rw [stageUnits_spatial_two 4 (by decide) _ a5 t5 _]
    decide
  rw [hsp] at hx2
  have hpool : poolOutDim 7 7 1 = 1 := by decide
  simp [mobnet_conv, conv2d, batchnorm] at hx2
  unfold MobileNetV2.call MobileNetV2.callS
  dsimp only
  simp [shapeOf, conv2d, batchnorm, mobnet_conv1x1, mobnet_conv, hx2, hpool,
    convOutDim_one1]

/-- Witness for C6: the width-1.0 table maps a batch-1 input to a
1x1000 output. -/
theorem spec_c6_witness :
    shapeOf ((⟨[[16], [24, 24], [32, 32, 32], [64, 64, 64, 64, 96, 96, 96],
        [160, 160, 160, 320]], 32, 1280, 3, (224, 224), 1000⟩ : MobileNetV2).call
      (Tensor.placeholder [1, 3, 224, 224]) false) = some [1, 1000] :=
  spec_c6 ⟨[[16], [24, 24], [32, 32, 32], [64, 64, 64, 64, 96, 96, 96],
    [160, 160, 160, 320]], 32, 1280, 3, (224, 224), 1000⟩ 1 false (by decide) (by decide)

theorem pyInt_intCast (z : ℤ) : pyInt (z : ℚ) = z := by
  simp [pyInt, Rat.num_intCast, Rat.den_intCast]

theorem pyInt_cast_eq {q : ℚ} {z : ℤ} (h : q = (z : ℚ)) : pyInt q = z := by
  rw [h, pyInt_intCast]

/-- C2: for every `width_scale ≠ 1.0`, `get_mobilenetv2` replaces every
per-unit channel count `c` of the table by `int(c * width_scale)`
(truncation toward zero) and scales `init_block_channels` the same way,
while `final_block_channels` is scaled only when `width_scale > 1.0` and is
left at 1280 for every `width_scale ≤ 1.0`. -/
theorem spec_c2 (width_scale : ℚ) (hw : width_scale ≠ 1) (model_name : Option String)
    (root : String) (in_channels : ℤ) (in_size : ℕ × ℕ) (classes : ℤ) :
    ∃ ext, (get_mobilenetv2 width_scale model_name false root in_channels in_size
        classes).1 = Except.ok ext ∧
      ext.net.channels =
        baseChannels.map (List.map fun cij : ℤ => pyInt ((cij : ℚ) * width_scale)) ∧
      ext.net.init_block_channels = pyInt (32 * width_scale) ∧
      (1 < width_scale → ext.net.final_block_channels = pyInt (1280 * width_scale)) ∧
      (width_scale ≤ 1 → ext.net.final_block_channels = 1280) := by
  refine ⟨⟨⟨baseChannels.map (List.map fun cij : ℤ => pyInt ((cij : ℚ) * width_scale)),
    pyInt (32 * width_scale),
    if width_scale ≠ 1 ∧ 1 < width_scale then pyInt (1280 * width_scale) else 1280,
    in_channels, in_size, classes⟩, none, none⟩, ?_, rfl, rfl, ?_, ?_⟩
  · simp [get_mobilenetv2, hw]
  · intro hlt
    exact if_pos ⟨hw, hlt⟩
  · intro hle
    exact if_neg fun hc => absurd hc.2 (not_lt.mpr hle)

/-- Witness for C2 at `width_scale = 0.75`: the init block scales to 24 and
the final block stays at 1280. -/
theorem spec_c2_witness :
    ∃ ext, (get_mobilenetv2 (3 / 4) none false "r" 3 (224, 224) 1000).1 =
        Except.ok ext ∧
      ext.net.init_block_channels = 24 ∧ ext.net.final_block_channels = 1280 := by
  obtain ⟨ext, h1, -, h3, -, h5⟩ :=
    spec_c2 (3 / 4) (by norm_num) none "r" 3 (224, 224) 1000
  refine ⟨ext, h1, ?_, h5 (by norm_num)⟩
  rw [h3]
  exact pyInt_cast_eq (by norm_num)

theorem pyFalsy_iff (mn : Option String) :
    pyFalsy mn = true ↔ mn = none ∨ mn = some "" := by
  cases mn with
  | none => simp [pyFalsy]
  | some s => simp [pyFalsy]

/-- C8: `get_mobilenetv2` fails with the `ValueError` exactly when
`pretrained` holds and `model_name` is `None` or empty; in that case no
download effect is recorded, and with `pretrained = False` no download
effect is recorded either, whatever `model_name` is. -/
theorem spec_c8 (width_scale : ℚ) (model_name : Option String) (pretrained : Bool)
    (root : String) (in_channels : ℤ) (in_size : ℕ × ℕ) (classes : ℤ) :
    ((∃ e, (get_mobilenetv2 width_scale model_name pretrained root in_channels in_size
        classes).1 = Except.error e) ↔
      pretrained = true ∧ (model_name = none ∨ model_name = some "")) ∧
    ((∃ e, (get_mobilenetv2 width_scale model_name pretrained root in_channels in_size
        classes).1 = Except.error e) →
      (get_mobilenetv2 width_scale model_name pretrained root in_channels in_size
        classes).2 = []) ∧
    (pretrained = false →
      (get_mobilenetv2 width_scale model_name pretrained root in_channels in_size
        classes).2 = []) := by
  have hmn := pyFalsy_iff model_name
  cases pretrained with
  | false => simp [get_mobilenetv2]
  | true =>
    by_cases hf : pyFalsy model_name = true
    · simp [get_mobilenetv2, hf, hmn.mp hf]
    · have hnot : ¬(model_name = none ∨ model_name = some "") := fun hc => hf (hmn.mpr hc)
      simp [get_mobilenetv2, hf, hnot]

/-- Witness for C8: with `pretrained = True` and no model name, the call
fails. -/
theorem spec_c8_witness :
    ∃ e, (get_mobilenetv2 1 none true "r" 3 (224, 224) 1000).1 = Except.error e :=
  (spec_c8 1 none true "r" 3 (224, 224) 1000).1.mpr ⟨rfl, Or.inl rfl⟩
